import Mathlib

/-!
# Verification of the entity matching and validation engine

Shallow embedding of the Entity Schema Manager core (entity scanner,
schema matcher, value comparator, link normalizer, missing-field
analyzer, and the public API service) together with proofs of the
specified properties.

JavaScript/TypeScript values appearing in metadata mappings and schema
criteria are modelled by the inductive type `JVal`; JS records
(objects used as string-keyed mappings) are association lists.
-/

namespace EntitySchema

/-- A JavaScript value as it occurs in frontmatter metadata and in
schema `propertyValues`.  Numbers are modelled as integers (no claim
in this development depends on float behaviour). -/
inductive JVal where
  | null : JVal
  | undef : JVal
  | str : String → JVal
  | num : Int → JVal
  | bool : Bool → JVal
  | arr : List JVal → JVal
  | obj : List (String × JVal) → JVal
deriving Repr

/-- A file handle as supplied by the host: full path, file name with
extension, and base name without extension (opaque components; the
engine never derives one from another). -/
structure TFile where
  path : String
  name : String
  basename : String
deriving Repr, DecidableEq

/-- A metadata mapping (parsed frontmatter): insertion-ordered
association list with string keys. -/
abbrev Rec := List (String × JVal)

/-- JS `key in object`: key existence. -/
def hasKey (fm : Rec) (k : String) : Bool :=
  (List.map Prod.fst fm).contains k

/-- JS `object[key]`: lookup, `undefined` when absent. -/
def getVal (fm : Rec) (k : String) : JVal :=
  match List.find? (fun p => p.1 == k) fm with
  | some p => p.2
  | none => JVal.undef

/-- JS truthiness of a value. -/
def jsTruthy : JVal → Bool
  | JVal.null => false
  | JVal.undef => false
  | JVal.str s => s ≠ ""
  | JVal.num n => n ≠ 0
  | JVal.bool b => b
  | JVal.arr _ => true
  | JVal.obj _ => true

/-- Characters removed by JS `String.prototype.trim` (WhiteSpace and
LineTerminator code points; the ASCII ones plus NBSP, BOM and the two
Unicode line separators suffice for this development). -/
def jsWhitespaceChar (c : Char) : Bool :=
  c = ' ' || c = '\t' || c = '\n' || c = '\r' ||
  c = '\x0b' || c = '\x0c' || c = Char.ofNat 0xa0 ||
  c = Char.ofNat 0xfeff || c = Char.ofNat 0x2028 || c = Char.ofNat 0x2029

/-- JS `String.prototype.trim`. -/
def jsTrim (s : String) : String :=
  String.mk (((s.data.dropWhile jsWhitespaceChar).reverse.dropWhile jsWhitespaceChar).reverse)

/-- ASCII lower-casing of one character. -/
def jsCharToLower (c : Char) : Char :=
  if 'A' ≤ c && c ≤ 'Z' then Char.ofNat (c.toNat + 32) else c

/-- JS `String.prototype.toLowerCase` (ASCII case folding suffices
for this development). -/
def jsToLower (s : String) : String :=
  String.mk (s.data.map jsCharToLower)

/-- Is the first list a prefix of the second? -/
def listIsPrefix : List Char → List Char → Bool
  | [], _ => true
  | _ :: _, [] => false
  | a :: as, b :: bs => a == b && listIsPrefix as bs

/-- JS `s.startsWith(p)`. -/
def jsStartsWith (s p : String) : Bool :=
  listIsPrefix p.data s.data

/-- JS `haystack.includes(needle)`: substring containment. -/
def jsIncludes (haystack needle : String) : Bool :=
  decide (needle.data <:+: haystack.data)

/-- Characters the JS regex metacharacter `.` does not match
(LineTerminator code points). -/
def lineTerminator (c : Char) : Bool :=
  c = '\n' || c = '\r' || c = Char.ofNat 0x2028 || c = Char.ofNat 0x2029

/-- `isObsidianLink` from the scanner: `/^\[\[.*\]\]$/.test(value.trim())`.
The trimmed string must begin with `[[`, end with `]]`, and the middle
(matched by `.*`) must contain no line terminator. -/
def isObsidianLink (v : String) : Bool :=
  let cs := (jsTrim v).data
  decide (4 ≤ cs.length) && cs.take 2 == ['[', '['] &&
  cs.drop (cs.length - 2) == [']', ']'] &&
  ((cs.drop 2).take (cs.length - 4)).all (fun c => !lineTerminator c)

/-- The capture group of `value.match(/^\[\[([^|]+)(?:\|.*?)?\]\]$/)`,
applied to the raw (untrimmed) string: the regex matches iff the string
is literally `[[`, then one or more non-`|` characters (the capture),
then optionally `|` followed by line-terminator-free text, then `]]`
at the very end. -/
def linkCapture (v : String) : Option String :=
  let cs := v.data
  if decide (4 ≤ cs.length) && cs.take 2 == ['[', '['] &&
      cs.drop (cs.length - 2) == [']', ']'] then
    let mid := (cs.drop 2).take (cs.length - 4)
    if mid.contains '|' then
      let g1 := mid.takeWhile (fun c => c != '|')
      let rest := (mid.dropWhile (fun c => c != '|')).drop 1
      if g1.isEmpty || rest.any lineTerminator then none
      else some (String.mk g1)
    else
      if mid.isEmpty then none else some (String.mk mid)
  else none

/-- `extractLinkPath` from the scanner: on a value that passes
`isObsidianLink` it applies the capture regex to the raw value and
returns the trimmed capture, falling back to the value itself when the
raw value does not match; on a non-link it returns the value. -/
def extractLinkPath (v : String) : String :=
  if isObsidianLink v then
    match linkCapture v with
    | some g1 => jsTrim g1
    | none => v
  else v

/-- Is the value JS `null` or `undefined` (the values equated by the
loose `== null` test)? -/
def jsNullish : JVal → Bool
  | JVal.null => true
  | JVal.undef => true
  | _ => false

/-- JS strict equality `===` restricted to the nullish branch of the
comparator: true iff both are `null` or both are `undefined`. -/
def nullishStrictEq : JVal → JVal → Bool
  | JVal.null, JVal.null => true
  | JVal.undef, JVal.undef => true
  | _, _ => false

/-- JS strict equality `===` for the comparator's final branch
(numbers, booleans, objects, mixed types).  Arrays and objects compare
by reference in JS; schema criteria values and metadata values never
alias, so `===` evaluates to false there. -/
def jsStrictEq : JVal → JVal → Bool
  | JVal.str a, JVal.str b => a == b
  | JVal.num a, JVal.num b => a == b
  | JVal.bool a, JVal.bool b => a == b
  | _, _ => false

/-- `compareFilePathWithString` from the scanner: a resolved file is
equivalent to a candidate string iff, case-insensitively, the candidate
(raw or after link extraction) equals the file's path, basename or
name, or the extracted candidate is a substring of the file's path. -/
def compareFilePathWithString (file : TFile) (compareString : String) : Bool :=
  let compareLower := jsToLower compareString
  let extractedPath := jsToLower (extractLinkPath compareString)
  (jsToLower file.path == compareLower || jsToLower file.path == extractedPath) ||
  (jsToLower file.basename == compareLower || jsToLower file.basename == extractedPath) ||
  (jsToLower file.name == compareLower || jsToLower file.name == extractedPath) ||
  jsIncludes (jsToLower file.path) extractedPath

/-- `compareLinksUsingAPI` from the scanner.  The injected `resolver`
models `app.metadataCache.getFirstLinkpathDest(path, '')`. -/
def compareLinksUsingAPI (resolver : String → Option TFile)
    (actualValue expectedValue : String) : Bool :=
  let actualLinkPath := extractLinkPath actualValue
  let expectedLinkPath := extractLinkPath expectedValue
  match resolver actualLinkPath, resolver expectedLinkPath with
  | some actualFile, some expectedFile => actualFile.path == expectedFile.path
  | some actualFile, none => compareFilePathWithString actualFile expectedValue
  | none, some expectedFile => compareFilePathWithString expectedFile actualValue
  | none, none => jsToLower actualLinkPath == jsToLower expectedLinkPath

mutual

/-- `comparePropertyValues` from the scanner: an expected array is an
OR over its elements (checked first); then the nullish branch; then
link-aware or case-insensitive string comparison; then strict
equality. -/
def comparePropertyValues (resolver : String → Option TFile)
    (actualValue : JVal) : JVal → Bool
  | JVal.arr es => comparePropertyValuesAny resolver actualValue es
  | expectedValue =>
    if jsNullish actualValue || jsNullish expectedValue then
      nullishStrictEq actualValue expectedValue
    else
      match actualValue, expectedValue with
      | JVal.str sa, JVal.str se =>
        if isObsidianLink sa || isObsidianLink se then
          compareLinksUsingAPI resolver sa se
        else
          jsToLower sa == jsToLower se
      | a, e => jsStrictEq a e

/-- `expectedValue.some(expected => comparePropertyValues(actual, expected))`:
left-to-right short-circuiting disjunction over the expected array. -/
def comparePropertyValuesAny (resolver : String → Option TFile)
    (actualValue : JVal) : List JVal → Bool
  | [] => false
  | e :: rest =>
    comparePropertyValues resolver actualValue e ||
    comparePropertyValuesAny resolver actualValue rest

end

/-- A property definition in a schema (`PropertyDefinition` in the
source); the property type tag is kept as a plain string. -/
structure PropertyDefinition where
  type : String
  required : Option Bool := none
  defaultValue : Option JVal := none
  description : Option String := none

/-- `MatchCriteria` from the source; every sub-criterion is optional. -/
structure MatchCriteria where
  requiredProperties : Option (List String) := none
  folderPath : Option String := none
  tagPattern : Option String := none
  namePattern : Option String := none
  propertyValues : Option (List (String × JVal)) := none

/-- `EntitySchema` from the source. -/
structure EntitySchema where
  name : String
  properties : List (String × PropertyDefinition)
  matchCriteria : MatchCriteria
  description : Option String := none

/-- `EntityInstance` from the source. -/
structure EntityInstance where
  file : TFile
  entityType : String
  properties : Rec
  missingProperties : List String

/-- `Array.isArray(frontmatter.tags) ? frontmatter.tags : [frontmatter.tags]`:
the tags value as a list. -/
def tagsOf (frontmatter : Rec) : List JVal :=
  match getVal frontmatter "tags" with
  | JVal.arr l => l
  | v => [v]

/-- `tag.includes(criteria.tagPattern)` for one tag (the code types
tags as strings; a non-string tag never contains the pattern). -/
def tagMatches (pat : String) : JVal → Bool
  | JVal.str s => jsIncludes s pat
  | _ => false

/-- `matchesSchema` from the scanner.  JS truthiness guards each
sub-criterion: an absent criterion (and an empty-string pattern, which
is falsy) is skipped; the tag criterion is additionally skipped when
the metadata's `tags` value is absent or falsy. -/
def matchesSchema (resolver : String → Option TFile) (file : TFile)
    (frontmatter : Rec) (schema : EntitySchema) : Bool :=
  let criteria := schema.matchCriteria
  (match criteria.requiredProperties with
   | some props => props.all (fun prop => hasKey frontmatter prop)
   | none => true) &&
  (match criteria.folderPath with
   | some fp => if fp ≠ "" then jsStartsWith file.path fp else true
   | none => true) &&
  (match criteria.tagPattern with
   | some pat =>
     if pat ≠ "" && jsTruthy (getVal frontmatter "tags") then
       (tagsOf frontmatter).any (tagMatches pat)
     else true
   | none => true) &&
  (match criteria.namePattern with
   | some pat => if pat ≠ "" then jsIncludes file.name pat else true
   | none => true) &&
  (match criteria.propertyValues with
   | some pvs => pvs.all (fun pv =>
       comparePropertyValues resolver (getVal frontmatter pv.1) pv.2)
   | none => true)

/-- `getMissingProperties` from the scanner: required keys of
`schema.properties` absent from the metadata, in order, followed by the
names of `matchCriteria.requiredProperties` absent from the metadata
and not already collected. -/
def getMissingProperties (frontmatter : Rec) (schema : EntitySchema) : List String :=
  let missing := schema.properties.foldl
    (fun acc p =>
      if p.2.required == some true && !hasKey frontmatter p.1 then acc ++ [p.1] else acc)
    []
  match schema.matchCriteria.requiredProperties with
  | some props => props.foldl
      (fun acc propName =>
        if !hasKey frontmatter propName && !acc.contains propName then acc ++ [propName]
        else acc)
      missing
  | none => missing

/-- The first-match search of the scanner's inner loop: the first
schema in sequence that matches the file, if any. -/
def findFirstMatch (resolver : String → Option TFile) (file : TFile)
    (frontmatter : Rec) : List EntitySchema → Option EntitySchema
  | [] => none
  | schema :: rest =>
    if matchesSchema resolver file frontmatter schema then some schema
    else findFirstMatch resolver file frontmatter rest

/-- The schemas the scanner's inner loop actually evaluates for one
file: every schema up to and including the first match (all of them
when none matches). -/
def schemasEvaluated (resolver : String → Option TFile) (file : TFile)
    (frontmatter : Rec) : List EntitySchema → List EntitySchema
  | [] => []
  | schema :: rest =>
    if matchesSchema resolver file frontmatter schema then [schema]
    else schema :: schemasEvaluated resolver file frontmatter rest

/-- One iteration of the scanner's outer loop: the instance produced
for one file, if any.  `getMeta` models
`app.metadataCache.getFileCache(file)?.frontmatter`; `none` covers both
a missing cache entry and an absent frontmatter (the `!metadata?.frontmatter`
guard — note that an empty mapping is a truthy JS object and is not
skipped). -/
def scanFile (resolver : String → Option TFile) (getMeta : TFile → Option Rec)
    (schemas : List EntitySchema) (file : TFile) : Option EntityInstance :=
  match getMeta file with
  | none => none
  | some frontmatter =>
    match findFirstMatch resolver file frontmatter schemas with
    | none => none
    | some schema =>
      some { file := file
             entityType := schema.name
             properties := frontmatter
             missingProperties := getMissingProperties frontmatter schema }

/-- `scanEntities` from the scanner, as the list it stores in
`this.entityInstances`: files in host order, at most one instance per
file occurrence. -/
def scanEntities (resolver : String → Option TFile) (getMeta : TFile → Option Rec)
    (files : List TFile) (schemas : List EntitySchema) : List EntityInstance :=
  files.filterMap (scanFile resolver getMeta schemas)

/-- The scanner's held state (`this.entityInstances`). -/
structure ScannerState where
  entityInstances : List EntityInstance

/-- The `scanEntities` method as a state transition: it first clears
`this.entityInstances` and then rebuilds it from the inputs, so the
new state does not depend on the previous one. -/
def scanEntitiesStep (resolver : String → Option TFile) (getMeta : TFile → Option Rec)
    (files : List TFile) (schemas : List EntitySchema) (_st : ScannerState) : ScannerState :=
  { entityInstances := scanEntities resolver getMeta files schemas }

/-- `EntityScanner.getEntitiesByType`: filter of the held result set. -/
def scannerGetEntitiesByType (entityInstances : List EntityInstance)
    (entityType : String) : List EntityInstance :=
  entityInstances.filter (fun e => e.entityType == entityType)

/-- The issue string `"<file>: missing <comma-joined fields>"`. -/
def issueString (e : EntityInstance) : String :=
  e.file.name ++ ": missing " ++ String.intercalate ", " e.missingProperties

/-- `EntityScanner.getValidationSummary`: one pass over the held
instances accumulating total, valid and issue strings. -/
def getValidationSummary (entityInstances : List EntityInstance) :
    Nat × Nat × List String :=
  entityInstances.foldl
    (fun acc e =>
      if e.missingProperties.isEmpty then (acc.1 + 1, acc.2.1 + 1, acc.2.2)
      else (acc.1 + 1, acc.2.1, acc.2.2 ++ [issueString e]))
    (0, 0, [])

/-- `EntityScanner.getEntitiesWithDrift`. -/
def getEntitiesWithDrift (entityInstances : List EntityInstance) : List EntityInstance :=
  entityInstances.filter (fun e => !e.missingProperties.isEmpty)

/-! ## The public API service (`api-service.ts`)

The service holds an internal schema cache and reads the scanner's
held instances.  The `entityType` argument of the public calls is
modelled as a `JVal` so that non-string arguments are expressible;
`!entityType || typeof entityType !== 'string'` accepts exactly
non-empty strings.  Defensive copying is invisible at this level
(values here have no identity); aliasing is treated separately in the
`Alias` namespace. -/

/-- The state the API service reads: its schema cache and the
scanner's held instances. -/
structure ApiState where
  schemas : List EntitySchema
  entityInstances : List EntityInstance

/-- `hasEntityType`. -/
def hasEntityType (st : ApiState) (entityType : JVal) : Bool :=
  match entityType with
  | JVal.str s => if s == "" then false else st.schemas.any (fun sc => sc.name == s)
  | _ => false

/-- `getEntitiesByType` of the API service: after the argument guard
it returns (copies of) the scanner's instances of that type, with no
check that the type is configured. -/
def apiGetEntitiesByType (st : ApiState) (entityType : JVal) : List EntityInstance :=
  match entityType with
  | JVal.str s =>
    if s == "" then []
    else scannerGetEntitiesByType st.entityInstances s
  | _ => []

/-- `getDefaultValueForPropertyType`. -/
def getDefaultValueForPropertyType (type : String) : JVal :=
  if type == "string" then JVal.str ""
  else if type == "number" then JVal.num 0
  else if type == "boolean" then JVal.bool false
  else if type == "array" then JVal.arr []
  else if type == "object" then JVal.obj []
  else JVal.null

/-- `getDefaultValueForProperty`. -/
def getDefaultValueForProperty (propDef : PropertyDefinition) : JVal :=
  match propDef.defaultValue with
  | some v => v
  | none => getDefaultValueForPropertyType propDef.type

/-- JS `object[key] = value`: overwrites in place when the key exists,
appends otherwise. -/
def setKey (r : Rec) (k : String) (v : JVal) : Rec :=
  if hasKey r k then r.map (fun p => if p.1 == k then (k, v) else p)
  else r ++ [(k, v)]

/-- `getEntityTemplate`: defaults for every schema property, string
defaults for criteria required properties not already present, then
the criteria `propertyValues` overriding. -/
def getEntityTemplate (st : ApiState) (entityType : JVal) : Rec :=
  match entityType with
  | JVal.str s =>
    if s == "" then []
    else
      match st.schemas.find? (fun sc => sc.name == s) with
      | none => []
      | some schema =>
        let t1 : Rec := schema.properties.foldl
          (fun acc p => setKey acc p.1 (getDefaultValueForProperty p.2)) []
        let t2 : Rec :=
          match schema.matchCriteria.requiredProperties with
          | some props => props.foldl
              (fun acc n =>
                if hasKey acc n then acc
                else setKey acc n (getDefaultValueForPropertyType "string"))
              t1
          | none => t1
        match schema.matchCriteria.propertyValues with
        | some pvs => pvs.foldl (fun acc pv => setKey acc pv.1 pv.2) t2
        | none => t2
  | _ => []

/-- `getEntityCount`: `0` when the type is not configured, otherwise
the scanner-side count. -/
def getEntityCount (st : ApiState) (entityType : JVal) : Nat :=
  if hasEntityType st entityType then
    match entityType with
    | JVal.str s => (scannerGetEntitiesByType st.entityInstances s).length
    | _ => 0
  else 0

/-- The record returned by `getEntityValidation`. -/
structure EntityValidation where
  total : Nat
  valid : Nat
  withIssues : Nat
  issues : List String
deriving Repr, DecidableEq

/-- `getEntityValidation`: the zero record when the type is not
configured, otherwise one accumulating pass over the type's
instances. -/
def getEntityValidation (st : ApiState) (entityType : JVal) : EntityValidation :=
  if hasEntityType st entityType then
    match entityType with
    | JVal.str s =>
      let entities := scannerGetEntitiesByType st.entityInstances s
      let acc := entities.foldl
        (fun acc e =>
          if e.missingProperties.isEmpty then (acc.1 + 1, acc.2.1, acc.2.2)
          else (acc.1, acc.2.1 + 1, acc.2.2 ++ [issueString e]))
        (0, 0, [])
      { total := entities.length, valid := acc.1, withIssues := acc.2.1, issues := acc.2.2 }
    | _ => { total := 0, valid := 0, withIssues := 0, issues := [] }
  else { total := 0, valid := 0, withIssues := 0, issues := [] }

/-! ## Object identity model for the defensive-copy claims

JS objects and arrays have reference identity; the spread-based copies
in `api-service.ts` allocate fresh objects only at the levels they
spread.  Composite values here carry an explicit address; a copy is
"deep" with respect to an internal value precisely when the two share
no address. -/

namespace Alias

/-- A JS value with identity: composites (objects, arrays) carry the
address under which they live; primitives have none. -/
inductive HVal where
  | str : String → HVal
  | num : Int → HVal
  | bool : Bool → HVal
  | null : HVal
  | undef : HVal
  | obj : Nat → List (String × HVal) → HVal
  | arr : Nat → List HVal → HVal
deriving Repr

mutual

/-- All addresses reachable from a value. -/
def HVal.addrs : HVal → List Nat
  | HVal.obj a fs => a :: addrsFields fs
  | HVal.arr a es => a :: addrsElems es
  | _ => []

/-- Addresses reachable from an object's fields. -/
def addrsFields : List (String × HVal) → List Nat
  | [] => []
  | f :: rest => f.2.addrs ++ addrsFields rest

/-- Addresses reachable from an array's elements. -/
def addrsElems : List HVal → List Nat
  | [] => []
  | e :: rest => e.addrs ++ addrsElems rest

end

/-- A schema as held by the API service: the schema object, its
`properties` mapping and its `matchCriteria` mapping each have their
own identity; the values inside those mappings (property-definition
objects, criteria values such as the `requiredProperties` array) are
`HVal`s with their own reachable addresses. -/
structure HSchema where
  addr : Nat
  name : String
  propsAddr : Nat
  props : List (String × HVal)
  critAddr : Nat
  crit : List (String × HVal)
deriving Repr

/-- Addresses reachable from a held schema. -/
def HSchema.addrs (s : HSchema) : List Nat :=
  s.addr :: s.propsAddr :: s.critAddr :: (addrsFields s.props ++ addrsFields s.crit)

/-- A JS array of schemas (the service's `this.schemas`). -/
structure HSchemaList where
  addr : Nat
  items : List HSchema
deriving Repr

/-- Addresses reachable from the schema array. -/
def HSchemaList.addrs (l : HSchemaList) : List Nat :=
  l.addr :: (l.items.map HSchema.addrs).flatten

/-- The spread copy
`{...schema, properties: {...schema.properties}, matchCriteria: {...schema.matchCriteria}}`:
three fresh objects, every nested value kept by reference. -/
def copySchemaSpread (fresh : Nat) (s : HSchema) : HSchema :=
  { s with addr := fresh, propsAddr := fresh + 1, critAddr := fresh + 2 }

/-- `getEntitySchemas`: `this.schemas.map(copy)` — a fresh result
array of spread copies. -/
def getEntitySchemasH (internal : HSchemaList) (base : Nat) : HSchemaList :=
  { addr := base
    items := internal.items.enum.map (fun p => copySchemaSpread (base + 1 + 3 * p.1) p.2) }

/-- An entity instance as held by the scanner: the instance object,
its `properties` mapping and its `missingProperties` array have their
own identities, as does the file handle. -/
structure HInstance where
  addr : Nat
  fileAddr : Nat
  entityType : String
  propsAddr : Nat
  props : List (String × HVal)
  missingAddr : Nat
  missingProperties : List String
deriving Repr

/-- Addresses reachable from a held instance. -/
def HInstance.addrs (e : HInstance) : List Nat :=
  e.addr :: e.fileAddr :: e.propsAddr :: e.missingAddr :: addrsFields e.props

/-- A JS array of instances (the scanner's `this.entityInstances`). -/
structure HInstanceList where
  addr : Nat
  items : List HInstance
deriving Repr

/-- Addresses reachable from the instance array. -/
def HInstanceList.addrs (l : HInstanceList) : List Nat :=
  l.addr :: (l.items.map HInstance.addrs).flatten

/-- `EntityScanner.getEntityInstances`: `return this.entityInstances;`
— the internal array itself. -/
def getEntityInstancesH (scanner : HInstanceList) : HInstanceList :=
  scanner

/-- The spread copy
`{...entity, properties: {...entity.properties}, missingProperties: [...entity.missingProperties]}`:
three fresh containers, the file handle and every nested value kept by
reference. -/
def copyInstanceSpread (fresh : Nat) (e : HInstance) : HInstance :=
  { e with addr := fresh, propsAddr := fresh + 1, missingAddr := fresh + 2 }

/-- `getEntitiesByType` of the API service in the identity model
(for a valid, non-empty string argument): filter, then a fresh result
array of spread copies. -/
def getEntitiesByTypeH (scanner : HInstanceList) (entityType : String)
    (base : Nat) : HInstanceList :=
  { addr := base
    items := ((scanner.items.filter (fun e => e.entityType == entityType)).enum.map
      (fun p => copyInstanceSpread (base + 1 + 3 * p.1) p.2)) }

/-- Every address reachable from the state is below `base` (the
allocator hands out fresh addresses from `base` on). -/
def FreshFor (base : Nat) (addrs : List Nat) : Prop :=
  ∀ a ∈ addrs, a < base

/-- The deep-copy contract of the claim: for any held state and any
fresh allocation base, none of the three query results shares any
address with the engine's internal state. -/
def apiDeepCopyClaim : Prop :=
  ∀ (schemas : HSchemaList) (scanner : HInstanceList) (base : Nat) (t : String),
    FreshFor base schemas.addrs → FreshFor base scanner.addrs →
    ((getEntitySchemasH schemas base).addrs.inter schemas.addrs = [] ∧
     (getEntitiesByTypeH scanner t base).addrs.inter scanner.addrs = [] ∧
     (getEntityInstancesH scanner).addrs.inter scanner.addrs = [])

end Alias

/-! ## General lemmas -/

/-- The mutual helper agrees with `List.any`. -/
theorem comparePropertyValuesAny_eq_any (r : String → Option TFile) (a : JVal)
    (es : List JVal) :
    comparePropertyValuesAny r a es = es.any (comparePropertyValues r a) := by
  induction es with
  | nil => rfl
  | cons e rest ih => simp [comparePropertyValuesAny, ih]

/-- Unfolding of the comparator on an expected array. -/
theorem comparePropertyValues_arr (r : String → Option TFile) (a : JVal)
    (es : List JVal) :
    comparePropertyValues r a (JVal.arr es) = es.any (comparePropertyValues r a) := by
  rw [comparePropertyValues]
  exact comparePropertyValuesAny_eq_any r a es

/-! ## Claim theorems -/

/-- C5: for every actual value and expected array, the comparator is
the disjunction of the element comparisons; the empty expected array
compares false against every actual value; and the array case runs
before the nullish branch, so an expected array containing `null` is
evaluated per-element (comparing any actual against `[null]` is the
same as comparing it against `null`, which succeeds for actual
`null`). -/
theorem claim_C5_expected_array_or (r : String → Option TFile) (a : JVal)
    (es : List JVal) :
    (comparePropertyValues r a (JVal.arr es) = true ↔
      ∃ e ∈ es, comparePropertyValues r a e = true) ∧
    comparePropertyValues r a (JVal.arr []) = false ∧
    comparePropertyValues r a (JVal.arr [JVal.null]) = comparePropertyValues r a JVal.null ∧
    comparePropertyValues r JVal.null (JVal.arr [JVal.null]) = true := by
  refine ⟨?_, ?_, ?_, ?_⟩
  · rw [comparePropertyValues_arr]
    simp [List.any_eq_true]
  · rw [comparePropertyValues_arr]
    rfl
  · rw [comparePropertyValues_arr]
    simp
  · rw [comparePropertyValues_arr]
    simp [comparePropertyValues, jsNullish, nullishStrictEq]

/-- C8: when at least one side is a symbolic reference and the
resolver resolves neither extracted target, the comparator reduces to
case-insensitive equality of the two extracted targets. -/
theorem claim_C8_dangling_link_fallback (r : String → Option TFile) (a e : String)
    (hlink : (isObsidianLink a || isObsidianLink e) = true)
    (ha : r (extractLinkPath a) = none)
    (he : r (extractLinkPath e) = none) :
    comparePropertyValues r (JVal.str a) (JVal.str e) =
      (jsToLower (extractLinkPath a) == jsToLower (extractLinkPath e)) := by
  rw [comparePropertyValues]
  simp only [jsNullish, Bool.or_self, Bool.false_or, if_neg Bool.false_ne_true, hlink,
    if_pos rfl, compareLinksUsingAPI, ha, he, if_true]

/-- A resolver that resolves nothing (every reference dangling). -/
def resolverNone : String → Option TFile := fun _ => none

/-- Witness for C8 at `"[[ghost]]"` versus `"[[other]]"` with the
dangling resolver. -/
theorem claim_C8_dangling_link_fallback_witness :
    comparePropertyValues resolverNone (JVal.str "[[ghost]]") (JVal.str "[[other]]") =
      (jsToLower (extractLinkPath "[[ghost]]") == jsToLower (extractLinkPath "[[other]]")) :=
  claim_C8_dangling_link_fallback resolverNone "[[ghost]]" "[[other]]"
    (by decide) rfl rfl

/-- C9: re-running `scanEntities` with unchanged inputs replaces the
held result set with a structurally equal one: the method clears
`this.entityInstances` and rebuilds it from the inputs alone, so a
second run from the state the first run produced yields the same
instance list. -/
theorem claim_C9_scan_idempotent (r : String → Option TFile)
    (getMeta : TFile → Option Rec) (files : List TFile)
    (schemas : List EntitySchema) (st : ScannerState) :
    (scanEntitiesStep r getMeta files schemas
        (scanEntitiesStep r getMeta files schemas st)).entityInstances =
      (scanEntitiesStep r getMeta files schemas st).entityInstances ∧
    ∀ st₂ : ScannerState,
      (scanEntitiesStep r getMeta files schemas st).entityInstances =
        (scanEntitiesStep r getMeta files schemas st₂).entityInstances :=
  ⟨rfl, fun _ => rfl⟩

/-- An instance produced for a file carries that file. -/
theorem scanFile_file_eq (r : String → Option TFile) (getMeta : TFile → Option Rec)
    (schemas : List EntitySchema) (f : TFile) (inst : EntityInstance)
    (h : scanFile r getMeta schemas f = some inst) : inst.file = f := by
  unfold scanFile at h
  cases hm : getMeta f with
  | none => rw [hm] at h; exact absurd h (by simp)
  | some fm =>
    rw [hm] at h
    dsimp only at h
    cases hf : findFirstMatch r f fm schemas with
    | none => rw [hf] at h; exact absurd h (by simp)
    | some schema =>
      rw [hf] at h
      dsimp only at h
      cases h
      rfl

/-- A concrete file handle used in concrete scenarios. -/
def fileA : TFile := { path := "notes/a.md", name := "a.md", basename := "a" }

/-- A schema with no criteria at all: every sub-criterion is skipped,
so it matches any scanned metadata vacuously. -/
def schemaAny : EntitySchema :=
  { name := "Any", properties := [], matchCriteria := {} }

/-- C2 counterexample: the scanner's guard is `!metadata?.frontmatter`,
and an empty mapping is a truthy JS object, so a file whose metadata is
the empty mapping is **not** skipped: against a schema with no criteria
it is matched and produces an EntityInstance, which also counts in the
validation summary.  The claim asserts such a file is never matched
and never reported. -/
theorem claim_C2_counterexample :
    (scanEntities resolverNone (fun _ => some []) [fileA] [schemaAny]).map
        (fun i => (i.file, i.entityType)) = [(fileA, "Any")] ∧
    getValidationSummary
        (scanEntities resolverNone (fun _ => some []) [fileA] [schemaAny]) =
      (1, 1, []) := by
  constructor
  · rfl
  · rfl

/-- C2 amended: a file whose metadata is absent is skipped entirely —
removing it from the file list does not change the scan result, and no
instance is produced for it (so it appears in no derived view); a file
whose metadata is an empty mapping, however, is still matched (see the
counterexample). -/
theorem claim_C2_absent_metadata_skipped (r : String → Option TFile)
    (getMeta : TFile → Option Rec) (files : List TFile)
    (schemas : List EntitySchema) (f : TFile)
    (hmeta : getMeta f = none) :
    scanEntities r getMeta files schemas =
      scanEntities r getMeta (files.filter (fun g => !(g == f))) schemas ∧
    (scanEntities r getMeta files schemas).countP (fun inst => inst.file == f) = 0 := by
  constructor
  · unfold scanEntities
    induction files with
    | nil => rfl
    | cons g rest ih =>
      by_cases hg : g = f
      · subst hg
        have hsf : scanFile r getMeta schemas g = none := by
          unfold scanFile; rw [hmeta]
        simp [List.filter_cons, List.filterMap_cons, hsf, ih]
      · have hne : (!(g == f)) = true := by simp [hg]
        rw [List.filter_cons, if_pos hne, List.filterMap_cons, List.filterMap_cons]
        cases scanFile r getMeta schemas g with
        | none => exact ih
        | some inst => rw [ih]
  · rw [List.countP_eq_zero]
    intro inst hinst
    unfold scanEntities at hinst
    rcases List.mem_filterMap.mp hinst with ⟨g, hgmem, hg⟩
    have hfile := scanFile_file_eq r getMeta schemas g inst hg
    intro hcontra
    have hgf : g = f := by
      have hif : inst.file = f := by simpa using hcontra
      rw [hfile] at hif
      exact hif
    subst hgf
    unfold scanFile at hg
    rw [hmeta] at hg
    exact absurd hg (by simp)

/-- Witness for C2 at a concrete input with absent metadata. -/
theorem claim_C2_absent_metadata_skipped_witness :
    scanEntities resolverNone (fun _ => none) [fileA] [schemaAny] =
      scanEntities resolverNone (fun _ => none)
        ([fileA].filter (fun g => !(g == fileA))) [schemaAny] ∧
    (scanEntities resolverNone (fun _ => none) [fileA]
        [schemaAny]).countP (fun inst => inst.file == fileA) = 0 :=
  claim_C2_absent_metadata_skipped resolverNone (fun _ => none) [fileA] [schemaAny] fileA rfl

/-- A schema whose only criterion is a tag pattern. -/
def schemaTagged : EntitySchema :=
  { name := "Tagged", properties := [],
    matchCriteria := { tagPattern := some "entity" } }

/-- C3 counterexample: the tag criterion is guarded by
`criteria.tagPattern && frontmatter.tags`, so when the metadata has no
`tags` field the whole criterion is skipped and the schema can still
match — the claim asserts such a file fails the schema's criteria. -/
theorem claim_C3_counterexample :
    hasKey [] "tags" = false ∧
    schemaTagged.matchCriteria.tagPattern = some "entity" ∧
    matchesSchema resolverNone fileA [] schemaTagged = true := by
  refine ⟨rfl, rfl, ?_⟩
  decide

/-- The schema with its tag criterion removed. -/
def withoutTagPattern (schema : EntitySchema) : EntitySchema :=
  { schema with matchCriteria := { schema.matchCriteria with tagPattern := none } }

/-- C3 amended: when `tagPattern` is set, non-empty, and the
metadata's `tags` value is present and truthy, a match requires some
tag to contain the pattern as a substring; but when the `tags` value
is absent or falsy (or the pattern is the empty string, which is
falsy), the tag criterion is skipped entirely and the schema behaves
as if it had no tag criterion. -/
theorem claim_C3_tag_pattern_amended (r : String → Option TFile) (file : TFile)
    (fm : Rec) (schema : EntitySchema) (pat : String)
    (hpat : schema.matchCriteria.tagPattern = some pat) :
    (pat ≠ "" → jsTruthy (getVal fm "tags") = true →
      matchesSchema r file fm schema = true →
      (tagsOf fm).any (tagMatches pat) = true) ∧
    (jsTruthy (getVal fm "tags") = false →
      matchesSchema r file fm schema = matchesSchema r file fm (withoutTagPattern schema)) ∧
    (pat = "" →
      matchesSchema r file fm schema = matchesSchema r file fm (withoutTagPattern schema)) := by
  refine ⟨?_, ?_, ?_⟩
  · intro hne htags hmatch
    simp only [matchesSchema] at hmatch
    rw [hpat] at hmatch
    simp only [Bool.and_eq_true] at hmatch
    have htag := hmatch.1.1.2
    rw [if_pos (by simp [hne, htags])] at htag
    exact htag
  · intro htags
    simp only [matchesSchema, withoutTagPattern]
    rw [hpat]
    simp [htags]
  · intro hempty
    subst hempty
    simp only [matchesSchema, withoutTagPattern]
    rw [hpat]
    simp

/-- Witness for C3 at a concrete tagged metadata: a `tags` list with a
tag containing the pattern. -/
theorem claim_C3_tag_pattern_amended_witness :
    ("entity" ≠ "" →
      jsTruthy (getVal [("tags", JVal.arr [JVal.str "entity/person"])] "tags") = true →
      matchesSchema resolverNone fileA [("tags", JVal.arr [JVal.str "entity/person"])]
        schemaTagged = true →
      (tagsOf [("tags", JVal.arr [JVal.str "entity/person"])]).any
        (tagMatches "entity") = true) ∧
    (jsTruthy (getVal [("tags", JVal.arr [JVal.str "entity/person"])] "tags") = false →
      matchesSchema resolverNone fileA [("tags", JVal.arr [JVal.str "entity/person"])]
          schemaTagged =
        matchesSchema resolverNone fileA [("tags", JVal.arr [JVal.str "entity/person"])]
          (withoutTagPattern schemaTagged)) ∧
    ("entity" = "" →
      matchesSchema resolverNone fileA [("tags", JVal.arr [JVal.str "entity/person"])]
          schemaTagged =
        matchesSchema resolverNone fileA [("tags", JVal.arr [JVal.str "entity/person"])]
          (withoutTagPattern schemaTagged)) :=
  claim_C3_tag_pattern_amended resolverNone fileA
    [("tags", JVal.arr [JVal.str "entity/person"])] schemaTagged "entity" rfl

/-- If index `i` is the first index whose schema matches, the inner
loop commits to exactly that schema. -/
theorem findFirstMatch_of_first (r : String → Option TFile) (f : TFile) (fm : Rec) :
    ∀ (schemas : List EntitySchema) (i : Nat) (hi : i < schemas.length),
      matchesSchema r f fm (schemas.get ⟨i, hi⟩) = true →
      (∀ k, (hk : k < i) → matchesSchema r f fm (schemas.get ⟨k, Nat.lt_trans hk hi⟩) = false) →
      findFirstMatch r f fm schemas = some (schemas.get ⟨i, hi⟩) := by
  intro schemas
  induction schemas with
  | nil => intro i hi; exact absurd hi (by simp)
  | cons s rest ih =>
    intro i hi hmatch hfirst
    cases i with
    | zero =>
      simp only [List.get] at hmatch
      simp [findFirstMatch, hmatch]
    | succ i =>
      have h0 : matchesSchema r f fm s = false := hfirst 0 (Nat.succ_pos i)
      simp only [List.get] at hmatch
      simp only [findFirstMatch, h0, Bool.false_eq_true, if_false, List.get]
      exact ih i (Nat.lt_of_succ_lt_succ hi) hmatch
        (fun k hk => hfirst (k + 1) (Nat.succ_lt_succ hk))

/-- If index `i` is the first index whose schema matches, the inner
loop evaluates exactly the schemas up to and including index `i`. -/
theorem schemasEvaluated_of_first (r : String → Option TFile) (f : TFile) (fm : Rec) :
    ∀ (schemas : List EntitySchema) (i : Nat) (hi : i < schemas.length),
      matchesSchema r f fm (schemas.get ⟨i, hi⟩) = true →
      (∀ k, (hk : k < i) → matchesSchema r f fm (schemas.get ⟨k, Nat.lt_trans hk hi⟩) = false) →
      schemasEvaluated r f fm schemas = schemas.take (i + 1) := by
  intro schemas
  induction schemas with
  | nil => intro i hi; exact absurd hi (by simp)
  | cons s rest ih =>
    intro i hi hmatch hfirst
    cases i with
    | zero =>
      simp only [List.get] at hmatch
      simp [schemasEvaluated, hmatch]
    | succ i =>
      have h0 : matchesSchema r f fm s = false := hfirst 0 (Nat.succ_pos i)
      simp only [List.get] at hmatch
      simp only [schemasEvaluated, h0, Bool.false_eq_true, if_false, List.take]
      rw [ih i (Nat.lt_of_succ_lt_succ hi) hmatch
        (fun k hk => hfirst (k + 1) (Nat.succ_lt_succ hk))]

/-- Each occurrence of a file in the scanned list yields at most one
instance carrying that file. -/
theorem scan_countP_le_count (r : String → Option TFile) (getMeta : TFile → Option Rec)
    (schemas : List EntitySchema) :
    ∀ (files : List TFile) (f : TFile),
      (scanEntities r getMeta files schemas).countP (fun inst => inst.file == f) ≤
        files.count f := by
  intro files
  induction files with
  | nil => intro f; simp [scanEntities]
  | cons g rest ih =>
    intro f
    unfold scanEntities at *
    rw [List.filterMap_cons]
    cases hg : scanFile r getMeta schemas g with
    | none =>
      calc (rest.filterMap (scanFile r getMeta schemas)).countP
            (fun inst => inst.file == f) ≤ rest.count f := ih f
        _ ≤ (g :: rest).count f := by
            rw [List.count_cons]
            omega
    | some inst =>
      have hfile : inst.file = g := scanFile_file_eq r getMeta schemas g inst hg
      rw [List.countP_cons, List.count_cons, hfile]
      have := ih f
      by_cases hgf : g = f
      · simp only [hgf, beq_self_eq_true, if_pos]
        omega
      · have h1 : (g == f) = false := by simp [hgf]
        have h2 : (f == g) = false := by simp [Ne.symm hgf]
        simp only [h1, h2, Bool.false_eq_true, if_false]
        omega

/-- A second trivially matching schema, distinct in name. -/
def schemaB : EntitySchema :=
  { name := "B", properties := [], matchCriteria := {} }

/-- A third trivially matching schema, distinct in name. -/
def schemaC : EntitySchema :=
  { name := "C", properties := [], matchCriteria := {} }

/-- C1 counterexample: with three schemas that all match a file, the
metadata matches the schemas at indices `1 < 2`, yet the produced
entityType is the name of schema 0, not of schema 1 — the claim, read
at `i = 1`, `j = 2`, asserts it would be `schemas[1].name`. -/
theorem claim_C1_counterexample :
    matchesSchema resolverNone fileA [] ([schemaAny, schemaB, schemaC].get ⟨1, by decide⟩) = true ∧
    matchesSchema resolverNone fileA [] ([schemaAny, schemaB, schemaC].get ⟨2, by decide⟩) = true ∧
    ([schemaAny, schemaB, schemaC].get ⟨1, by decide⟩).name = "B" ∧
    (scanEntities resolverNone (fun _ => some []) [fileA]
        [schemaAny, schemaB, schemaC]).map (fun i => i.entityType) = ["Any"] ∧
    "Any" ≠ "B" := by
  refine ⟨by decide, by decide, rfl, rfl, by decide⟩

/-- C1 amended: when `i` is the **first** index at which the file's
metadata matches (no earlier schema matches), every instance produced
for that file carries `schemas[i].name`; the inner loop evaluates only
the schemas up to index `i`; under distinct schema names the produced
name differs from the name of any later-matching index `j`; and each
occurrence of a file in the scanned list yields at most one
instance. -/
theorem claim_C1_first_match_amended (r : String → Option TFile)
    (getMeta : TFile → Option Rec) (files : List TFile)
    (schemas : List EntitySchema) (f : TFile) (fm : Rec) (i j : Nat)
    (hi : i < schemas.length) (hj : j < schemas.length) (hij : i < j)
    (hmeta : getMeta f = some fm)
    (hmatch : matchesSchema r f fm (schemas.get ⟨i, hi⟩) = true)
    (hfirst : ∀ k, (hk : k < i) → matchesSchema r f fm (schemas.get ⟨k, Nat.lt_trans hk hi⟩) = false)
    (hnodup : (schemas.map EntitySchema.name).Nodup) :
    (scanEntities r getMeta files schemas).all
        (fun inst => !(inst.file == f) || (inst.entityType == (schemas.get ⟨i, hi⟩).name)) = true ∧
    schemasEvaluated r f fm schemas = schemas.take (i + 1) ∧
    (schemas.get ⟨i, hi⟩).name ≠ (schemas.get ⟨j, hj⟩).name ∧
    (scanEntities r getMeta files schemas).countP (fun inst => inst.file == f) ≤
      files.count f := by
  refine ⟨?_, schemasEvaluated_of_first r f fm schemas i hi hmatch hfirst, ?_,
    scan_countP_le_count r getMeta schemas files f⟩
  · rw [List.all_eq_true]
    intro inst hinst
    unfold scanEntities at hinst
    rcases List.mem_filterMap.mp hinst with ⟨g, hgmem, hg⟩
    have hfile := scanFile_file_eq r getMeta schemas g inst hg
    by_cases hgf : inst.file = f
    · have hgeq : g = f := by rw [hfile] at hgf; exact hgf
      subst hgeq
      unfold scanFile at hg
      rw [hmeta] at hg
      dsimp only at hg
      rw [findFirstMatch_of_first r g fm schemas i hi hmatch hfirst] at hg
      dsimp only at hg
      cases hg
      simp
    · simp [hgf]
  · intro heq
    have hmap : (schemas.map EntitySchema.name).get ⟨i, by simpa using hi⟩ =
        (schemas.map EntitySchema.name).get ⟨j, by simpa using hj⟩ := by
      simpa [List.get_eq_getElem, List.getElem_map] using heq
    have := (List.Nodup.get_inj_iff hnodup).mp hmap
    simp only [Fin.mk.injEq] at this
    omega

/-- A schema that matches nothing lacking key `"zzz"`. -/
def schemaNever : EntitySchema :=
  { name := "Never", properties := [],
    matchCriteria := { requiredProperties := some ["zzz"] } }

/-- Witness for the amended C1 at a concrete input: first match at
index 1 of `[schemaNever, schemaB, schemaC]`, with index 2 also
matching. -/
theorem claim_C1_first_match_amended_witness :
    (scanEntities resolverNone (fun _ => some []) [fileA]
        [schemaNever, schemaB, schemaC]).all
        (fun inst => !(inst.file == fileA) ||
          (inst.entityType == (([schemaNever, schemaB, schemaC] :
            List EntitySchema).get ⟨1, by decide⟩).name)) = true ∧
    schemasEvaluated resolverNone fileA []
        [schemaNever, schemaB, schemaC] =
      ([schemaNever, schemaB, schemaC] : List EntitySchema).take 2 ∧
    (([schemaNever, schemaB, schemaC] : List EntitySchema).get ⟨1, by decide⟩).name ≠
      (([schemaNever, schemaB, schemaC] : List EntitySchema).get ⟨2, by decide⟩).name ∧
    (scanEntities resolverNone (fun _ => some []) [fileA]
        [schemaNever, schemaB, schemaC]).countP
        (fun inst => inst.file == fileA) ≤ ([fileA] : List TFile).count fileA :=
  claim_C1_first_match_amended resolverNone (fun _ => some []) [fileA]
    [schemaNever, schemaB, schemaC] fileA [] 1 2 (by decide) (by decide)
    (by decide) rfl (by decide)
    (by
      intro k hk
      have hz : k = 0 := by omega
      subst hz
      show matchesSchema resolverNone fileA [] schemaNever = false
      decide)
    (by decide)

/-! ## The missing-field analyzer against the spec's wording (C7) -/

/-- First-seen de-duplication: keep the first occurrence of every
element. -/
def dedupKeepFirst : List String → List String
  | [] => []
  | x :: xs => x :: (dedupKeepFirst xs).filter (fun y => !(y == x))

/-- The spec-worded first half: keys of `schema.properties` marked
required and absent from the metadata, in order. -/
def requiredAbsentFromProperties (fm : Rec) (schema : EntitySchema) : List String :=
  (schema.properties.filter
    (fun p => p.2.required == some true && !hasKey fm p.1)).map Prod.fst

/-- The spec-worded second half: names in
`matchCriteria.requiredProperties` absent from the metadata, in
order. -/
def requiredAbsentFromCriteria (fm : Rec) (schema : EntitySchema) : List String :=
  (match schema.matchCriteria.requiredProperties with
   | some props => props
   | none => []).filter (fun n => !hasKey fm n)

/-- `missingFields` as the claim words it: the de-duplicated,
first-seen-order union of the two halves. -/
def missingFieldsSpec (fm : Rec) (schema : EntitySchema) : List String :=
  dedupKeepFirst (requiredAbsentFromProperties fm schema ++ requiredAbsentFromCriteria fm schema)

/-- Membership is preserved by first-seen de-duplication. -/
theorem mem_dedupKeepFirst (x : String) : ∀ l : List String,
    x ∈ dedupKeepFirst l ↔ x ∈ l := by
  intro l
  induction l with
  | nil => simp [dedupKeepFirst]
  | cons y ys ih =>
    simp only [dedupKeepFirst, List.mem_cons, List.mem_filter, ih, Bool.not_eq_eq_eq_not,
      Bool.not_true, beq_eq_false_iff_ne, ne_eq]
    constructor
    · rintro (h | ⟨h, -⟩)
      · exact Or.inl h
      · exact Or.inr h
    · rintro (h | h)
      · exact Or.inl h
      · by_cases hxy : x = y
        · exact Or.inl hxy
        · exact Or.inr ⟨h, hxy⟩

/-- First-seen de-duplication yields a duplicate-free list. -/
theorem nodup_dedupKeepFirst : ∀ l : List String, (dedupKeepFirst l).Nodup := by
  intro l
  induction l with
  | nil => simp [dedupKeepFirst]
  | cons y ys ih =>
    simp only [dedupKeepFirst, List.nodup_cons]
    refine ⟨?_, List.Nodup.filter _ ih⟩
    intro hmem
    have := (List.mem_filter.mp hmem).2
    simp at this

/-- De-duplication of a duplicate-free list is the identity. -/
theorem dedupKeepFirst_eq_self : ∀ l : List String, l.Nodup → dedupKeepFirst l = l := by
  intro l
  induction l with
  | nil => intro; rfl
  | cons y ys ih =>
    intro hnd
    rcases List.nodup_cons.mp hnd with ⟨hy, hys⟩
    rw [dedupKeepFirst, ih hys]
    congr 1
    apply List.filter_eq_self.mpr
    intro a ha
    simp only [Bool.not_eq_eq_eq_not, Bool.not_true, beq_eq_false_iff_ne, ne_eq]
    intro heq
    exact hy (heq ▸ ha)

/-- First-seen de-duplication commutes with filtering. -/
theorem dedupKeepFirst_filter (p : String → Bool) : ∀ l : List String,
    dedupKeepFirst (l.filter p) = (dedupKeepFirst l).filter p := by
  intro l
  induction l with
  | nil => rfl
  | cons x xs ih =>
    cases hp : p x with
    | true =>
      rw [List.filter_cons, if_pos (by rw [hp])]
      rw [dedupKeepFirst, dedupKeepFirst, ih]
      rw [List.filter_cons, if_pos (by rw [hp])]
      congr 1
      rw [List.filter_comm]
    | false =>
      rw [List.filter_cons, if_neg (by rw [hp]; exact Bool.false_ne_true)]
      rw [ih, dedupKeepFirst]
      rw [List.filter_cons, if_neg (by rw [hp]; exact Bool.false_ne_true)]
      rw [List.filter_filter]
      apply List.filter_congr
      intro a _
      by_cases hax : a = x
      · subst hax
        simp [hp]
      · simp [hax]

/-- The first accumulation loop of `getMissingProperties`, resolved:
it appends the required-and-absent keys to the accumulator. -/
theorem foldl_collect_eq (fm : Rec) : ∀ (l : List (String × PropertyDefinition))
    (acc0 : List String),
    l.foldl (fun acc p =>
      if p.2.required == some true && !hasKey fm p.1 then acc ++ [p.1] else acc) acc0 =
    acc0 ++ (l.filter (fun p => p.2.required == some true && !hasKey fm p.1)).map Prod.fst := by
  intro l
  induction l with
  | nil => intro acc0; simp
  | cons p rest ih =>
    intro acc0
    rw [List.foldl_cons, List.filter_cons]
    cases h : (p.2.required == some true && !hasKey fm p.1) with
    | true => rw [if_pos rfl, if_pos rfl, ih]; simp
    | false => rw [if_neg Bool.false_ne_true, if_neg Bool.false_ne_true, ih]

/-- The first accumulation loop started from the empty accumulator is
exactly the properties-half of the spec's union. -/
theorem foldl_collect_eq_nil (fm : Rec) (schema : EntitySchema) :
    schema.properties.foldl (fun acc p =>
      if p.2.required == some true && !hasKey fm p.1 then acc ++ [p.1] else acc) [] =
    requiredAbsentFromProperties fm schema := by
  rw [foldl_collect_eq fm schema.properties [], List.nil_append]
  rfl

/-- Excluding the keys of `acc0 ++ [n]` is excluding the keys of
`acc0` and then excluding `n`. -/
theorem filter_contains_append_singleton (acc0 : List String) (n : String)
    (X : List String) :
    X.filter (fun m => !(acc0 ++ [n]).contains m) =
    (X.filter (fun m => !acc0.contains m)).filter (fun y => !(y == n)) := by
  rw [List.filter_filter]
  apply List.filter_congr
  intro a _
  by_cases h1 : a ∈ acc0
  · simp [h1, List.mem_append]
  · by_cases h2 : a = n
    · simp [h1, h2, List.mem_append]
    · simp [h1, h2, List.mem_append]

/-- Excluding the keys of `x :: P` is excluding the keys of `P` and
then excluding `x`. -/
theorem filter_contains_cons (P : List String) (x : String) (C : List String) :
    C.filter (fun m => !(x :: P).contains m) =
    (C.filter (fun m => !P.contains m)).filter (fun y => !(y == x)) := by
  rw [List.filter_filter]
  apply List.filter_congr
  intro a _
  by_cases h1 : a ∈ P
  · simp [h1]
  · by_cases h2 : a = x
    · simp [h1, h2]
    · simp [h1, h2]

/-- The second accumulation loop of `getMissingProperties`, resolved:
it appends the first-seen de-duplicated new absent names to the
accumulator. -/
theorem foldl_addNew_eq (fm : Rec) : ∀ (l : List String) (acc0 : List String),
    l.foldl (fun acc n => if !hasKey fm n && !acc.contains n then acc ++ [n] else acc) acc0 =
    acc0 ++ dedupKeepFirst ((l.filter (fun n => !hasKey fm n)).filter
      (fun n => !acc0.contains n)) := by
  intro l
  induction l with
  | nil => intro acc0; simp [dedupKeepFirst]
  | cons n l ih =>
    intro acc0
    rw [List.foldl_cons]
    cases hq : hasKey fm n with
    | true =>
      rw [List.filter_cons, if_neg (by simp [hq])]
      rw [if_neg (by simp [hq])]
      exact ih acc0
    | false =>
      cases hc : acc0.contains n with
      | true =>
        rw [if_neg (by simp [hq, hc])]
        rw [List.filter_cons, if_pos (by simp [hq])]
        rw [List.filter_cons, if_neg (by simpa using hc)]
        exact ih acc0
      | false =>
        rw [if_pos (by simp [hq, hc])]
        rw [ih (acc0 ++ [n])]
        rw [List.filter_cons, if_pos (by simp [hq])]
        rw [List.filter_cons, if_pos (by simpa using hc)]
        rw [dedupKeepFirst]
        rw [List.append_assoc, List.singleton_append]
        congr 2
        rw [filter_contains_append_singleton acc0 n (l.filter (fun n => !hasKey fm n))]
        rw [dedupKeepFirst_filter]

/-- Splitting first-seen de-duplication across an append whose left
part is duplicate-free. -/
theorem dedupKeepFirst_append (C : List String) : ∀ P : List String, P.Nodup →
    dedupKeepFirst (P ++ C) =
      P ++ dedupKeepFirst (C.filter (fun n => !P.contains n)) := by
  intro P
  induction P with
  | nil =>
    intro
    simp only [List.nil_append]
    congr 1
    rw [List.filter_eq_self.mpr]
    intro a _
    simp
  | cons x P ih =>
    intro hnd
    rcases List.nodup_cons.mp hnd with ⟨hx, hP⟩
    rw [List.cons_append, dedupKeepFirst, ih hP]
    rw [List.filter_append]
    have hPx : P.filter (fun y => !(y == x)) = P := by
      apply List.filter_eq_self.mpr
      intro a ha
      simp only [Bool.not_eq_eq_eq_not, Bool.not_true, beq_eq_false_iff_ne, ne_eq]
      intro heq
      exact hx (heq ▸ ha)
    rw [hPx, List.cons_append]
    congr 2
    rw [filter_contains_cons P x C]
    rw [dedupKeepFirst_filter (fun y => !(y == x))]

/-- The properties-half of the missing list is duplicate-free when the
schema's property keys are (JS records cannot duplicate keys). -/
theorem requiredAbsentFromProperties_nodup (fm : Rec) (schema : EntitySchema)
    (hnd : (schema.properties.map Prod.fst).Nodup) :
    (requiredAbsentFromProperties fm schema).Nodup := by
  unfold requiredAbsentFromProperties
  exact List.Nodup.sublist
    (List.Sublist.map Prod.fst (List.filter_sublist schema.properties)) hnd

/-- C7: `getMissingProperties` returns exactly the first-seen
de-duplicated union the claim describes — required-and-absent
`schema.properties` keys first, then absent
`matchCriteria.requiredProperties` names not already listed; the
result is duplicate-free; and it never lists a key present in the
metadata (key existence, not truthiness). -/
theorem claim_C7_missing_fields (fm : Rec) (schema : EntitySchema)
    (hnd : (schema.properties.map Prod.fst).Nodup) :
    getMissingProperties fm schema = missingFieldsSpec fm schema ∧
    (getMissingProperties fm schema).Nodup ∧
    (getMissingProperties fm schema).all (fun k => !hasKey fm k) = true := by
  have hP := requiredAbsentFromProperties_nodup fm schema hnd
  have heq : getMissingProperties fm schema = missingFieldsSpec fm schema := by
    unfold getMissingProperties missingFieldsSpec
    rw [foldl_collect_eq_nil fm schema]
    cases hrp : schema.matchCriteria.requiredProperties with
    | none =>
      unfold requiredAbsentFromCriteria
      rw [hrp]
      dsimp only
      simp only [List.filter_nil, List.append_nil]
      exact (dedupKeepFirst_eq_self _ hP).symm
    | some props =>
      unfold requiredAbsentFromCriteria
      rw [hrp]
      dsimp only
      rw [foldl_addNew_eq fm props (requiredAbsentFromProperties fm schema)]
      rw [dedupKeepFirst_append _ _ hP]
  refine ⟨heq, ?_, ?_⟩
  · rw [heq]
    exact nodup_dedupKeepFirst _
  · rw [heq, List.all_eq_true]
    intro k hk
    have := (mem_dedupKeepFirst k _).mp hk
    rcases List.mem_append.mp this with h | h
    · unfold requiredAbsentFromProperties at h
      rcases List.mem_map.mp h with ⟨p, hp, hpk⟩
      have := (List.mem_filter.mp hp).2
      rw [Bool.and_eq_true] at this
      rw [← hpk]
      exact this.2
    · unfold requiredAbsentFromCriteria at h
      exact (List.mem_filter.mp h).2

/-- The metadata of the claim's own example: `{is: "x"}`. -/
def fmIsOnly : Rec := [("is", JVal.str "x")]

/-- The schema of the claim's own example: required `name`, optional
`email`, criteria requiring `name` and `is`. -/
def schemaExample : EntitySchema :=
  { name := "Example"
    properties :=
      [("name", { type := "string", required := some true }),
       ("email", { type := "string", required := some false })]
    matchCriteria := { requiredProperties := some ["name", "is"] } }

/-- Witness for C7 at the claim's own example, where the missing list
is `["name"]`. -/
theorem claim_C7_missing_fields_witness :
    (getMissingProperties fmIsOnly schemaExample = missingFieldsSpec fmIsOnly schemaExample ∧
      (getMissingProperties fmIsOnly schemaExample).Nodup ∧
      (getMissingProperties fmIsOnly schemaExample).all
        (fun k => !hasKey fmIsOnly k) = true) ∧
    getMissingProperties fmIsOnly schemaExample = ["name"] :=
  ⟨claim_C7_missing_fields fmIsOnly schemaExample (by decide), by decide⟩

/-! ## The link normalizer against the claim (C6) -/

/-- A list whose first element fails the predicate loses nothing to
`dropWhile`. -/
theorem dropWhile_eq_self_of_head (p : Char → Bool) (l : List Char)
    (h : ∀ c, l.head? = some c → p c = false) : l.dropWhile p = l := by
  cases l with
  | nil => rfl
  | cons a l => rw [List.dropWhile_cons, if_neg (by simp [h a rfl])]

/-- `jsTrim` is the identity on strings whose first and last
characters are not whitespace. -/
theorem jsTrim_eq_self (s : String)
    (hhead : ∀ c, s.data.head? = some c → jsWhitespaceChar c = false)
    (hlast : ∀ c, s.data.getLast? = some c → jsWhitespaceChar c = false) :
    jsTrim s = s := by
  unfold jsTrim
  rw [dropWhile_eq_self_of_head _ _ hhead]
  rw [dropWhile_eq_self_of_head _ _ (by
    intro c hc
    rw [List.head?_reverse] at hc
    exact hlast c hc)]
  rw [List.reverse_reverse]

/-- The character data of a bracket-wrapped string. -/
theorem wrap_data (mid : String) :
    ("[[" ++ mid ++ "]]").data = '[' :: '[' :: (mid.data ++ [']', ']']) := by
  rw [String.data_append, String.data_append]
  simp

/-- A bracket-wrapped string trims to itself. -/
theorem jsTrim_wrap (mid : String) :
    jsTrim ("[[" ++ mid ++ "]]") = "[[" ++ mid ++ "]]" := by
  apply jsTrim_eq_self
  · intro c hc
    rw [wrap_data] at hc
    simp only [List.head?_cons, Option.some.injEq] at hc
    subst hc
    rfl
  · intro c hc
    rw [wrap_data] at hc
    rw [show '[' :: '[' :: (mid.data ++ [']', ']']) =
        ('[' :: '[' :: mid.data) ++ [']', ']'] by simp] at hc
    rw [List.getLast?_append_of_ne_nil _ (by simp)] at hc
    simp only [List.getLast?_cons_cons, List.getLast?_singleton, Option.some.injEq] at hc
    subst hc
    rfl

/-- On a bracket-wrapped string with non-empty, pipe-free and
line-terminator-free inner text, `isObsidianLink` holds. -/
theorem isObsidianLink_wrap (mid : String)
    (hlt : mid.data.all (fun c => !lineTerminator c) = true) :
    isObsidianLink ("[[" ++ mid ++ "]]") = true := by
  have hlen : ('[' :: '[' :: (mid.data ++ [']', ']'])).length = mid.data.length + 4 := by
    simp only [List.length_cons, List.length_append, List.length_nil]
    try omega
  have htake : ('[' :: '[' :: (mid.data ++ [']', ']'])).take 2 = ['[', '['] := rfl
  have hdrop2 : ('[' :: '[' :: (mid.data ++ [']', ']'])).drop 2 = mid.data ++ [']', ']'] := rfl
  have hdropend : ('[' :: '[' :: (mid.data ++ [']', ']'])).drop (mid.data.length + 4 - 2) =
      [']', ']'] := by
    have h4 : mid.data.length + 4 - 2 = (mid.data.length + 1) + 1 := by omega
    rw [h4, List.drop_succ_cons, List.drop_succ_cons]
    exact List.drop_left' rfl
  have hmid : (('[' :: '[' :: (mid.data ++ [']', ']'])).drop 2).take
      (mid.data.length + 4 - 4) = mid.data := by
    rw [hdrop2]
    have h4 : mid.data.length + 4 - 4 = mid.data.length := by omega
    rw [h4]
    exact List.take_left mid.data [']', ']']
  unfold isObsidianLink
  rw [jsTrim_wrap]
  simp only [wrap_data, hlen, htake, hdropend, hmid]
  simp [hlt]

/-- `linkCapture` on a bracket-wrapped pipe-free string captures the
inner text. -/
theorem linkCapture_wrap (mid : String) (hne : mid ≠ "")
    (hpipe : mid.data.contains '|' = false) :
    linkCapture ("[[" ++ mid ++ "]]") = some mid := by
  have hlen : ('[' :: '[' :: (mid.data ++ [']', ']'])).length = mid.data.length + 4 := by
    simp only [List.length_cons, List.length_append, List.length_nil]
    try omega
  have htake : ('[' :: '[' :: (mid.data ++ [']', ']'])).take 2 = ['[', '['] := rfl
  have hdrop2 : ('[' :: '[' :: (mid.data ++ [']', ']'])).drop 2 = mid.data ++ [']', ']'] := rfl
  have hdropend : ('[' :: '[' :: (mid.data ++ [']', ']'])).drop (mid.data.length + 4 - 2) =
      [']', ']'] := by
    have h4 : mid.data.length + 4 - 2 = (mid.data.length + 1) + 1 := by omega
    rw [h4, List.drop_succ_cons, List.drop_succ_cons]
    exact List.drop_left' rfl
  have hmid : (('[' :: '[' :: (mid.data ++ [']', ']'])).drop 2).take
      (mid.data.length + 4 - 4) = mid.data := by
    rw [hdrop2]
    have h4 : mid.data.length + 4 - 4 = mid.data.length := by omega
    rw [h4]
    exact List.take_left mid.data [']', ']']
  have hempty : mid.data.isEmpty = false := by
    cases hmd : mid.data with
    | nil =>
      exfalso
      apply hne
      rcases mid with ⟨l⟩
      simp only at hmd
      try rw [hmd]
      try rfl
    | cons c l => rfl
  unfold linkCapture
  simp only [wrap_data, hlen, htake, hdropend, hmid]
  rw [if_pos (by simp)]
  rw [hpipe]
  simp [hempty]

/-- `takeWhile` and `dropWhile` split exactly at the first failing
element. -/
theorem takeWhile_dropWhile_split (p : Char → Bool) (y : Char) (ys : List Char) :
    ∀ xs : List Char, (∀ x ∈ xs, p x = true) → p y = false →
      (xs ++ y :: ys).takeWhile p = xs ∧ (xs ++ y :: ys).dropWhile p = y :: ys := by
  intro xs
  induction xs with
  | nil =>
    intro _ hy
    constructor
    · rw [List.nil_append, List.takeWhile_cons, if_neg (by simp [hy])]
    · rw [List.nil_append, List.dropWhile_cons, if_neg (by simp [hy])]
  | cons x xs ih =>
    intro hxs hy
    have hx : p x = true := hxs x (List.mem_cons_self x xs)
    rcases ih (fun a ha => hxs a (List.mem_cons_of_mem x ha)) hy with ⟨ht, hd⟩
    constructor
    · rw [List.cons_append, List.takeWhile_cons, if_pos (by simp [hx]), ht]
    · rw [List.cons_append, List.dropWhile_cons, if_pos (by simp [hx]), hd]

/-- `linkCapture` on a bracket-wrapped string with a pipe captures the
text before the first pipe. -/
theorem linkCapture_pipe (g1 d : String) (hg1ne : g1 ≠ "")
    (hg1pipe : g1.data.contains '|' = false)
    (hdlt : d.data.all (fun c => !lineTerminator c) = true) :
    linkCapture ("[[" ++ (g1 ++ "|" ++ d) ++ "]]") = some g1 := by
  have hdata : (g1 ++ "|" ++ d).data = g1.data ++ '|' :: d.data := by
    rw [String.data_append, String.data_append]
    simp
  have hg1all : ∀ x ∈ g1.data, (x != '|') = true := by
    intro x hx
    simp only [bne_iff_ne, ne_eq]
    intro heq
    subst heq
    rw [show g1.data.contains '|' = true by simpa using hx] at hg1pipe
    exact absurd hg1pipe (by simp)
  rcases takeWhile_dropWhile_split (fun c => c != '|') '|' d.data g1.data hg1all
    (by decide) with ⟨htw, hdw⟩
  have hlen : ('[' :: '[' :: ((g1.data ++ '|' :: d.data) ++ [']', ']'])).length =
      (g1.data ++ '|' :: d.data).length + 4 := by
    simp only [List.length_cons, List.length_append, List.length_nil]
    try omega
  have htake : ('[' :: '[' :: ((g1.data ++ '|' :: d.data) ++ [']', ']'])).take 2 =
      ['[', '['] := rfl
  have hdropend : ('[' :: '[' :: ((g1.data ++ '|' :: d.data) ++ [']', ']'])).drop
      ((g1.data ++ '|' :: d.data).length + 4 - 2) = [']', ']'] := by
    have h4 : (g1.data ++ '|' :: d.data).length + 4 - 2 =
        ((g1.data ++ '|' :: d.data).length + 1) + 1 := by omega
    rw [h4, List.drop_succ_cons, List.drop_succ_cons]
    exact List.drop_left' rfl
  have hmid : (('[' :: '[' :: ((g1.data ++ '|' :: d.data) ++ [']', ']'])).drop 2).take
      ((g1.data ++ '|' :: d.data).length + 4 - 4) = g1.data ++ '|' :: d.data := by
    have h2 : ('[' :: '[' :: ((g1.data ++ '|' :: d.data) ++ [']', ']'])).drop 2 =
        (g1.data ++ '|' :: d.data) ++ [']', ']'] := rfl
    rw [h2]
    have h4 : (g1.data ++ '|' :: d.data).length + 4 - 4 =
        (g1.data ++ '|' :: d.data).length := by omega
    rw [h4]
    exact List.take_left _ _
  have hcontains : (g1.data ++ '|' :: d.data).contains '|' = true := by
    simp [List.mem_append]
  have hg1empty : g1.data.isEmpty = false := by
    cases hmd : g1.data with
    | nil =>
      exfalso
      apply hg1ne
      rcases g1 with ⟨l⟩
      simp only at hmd
      try rw [hmd]
      try rfl
    | cons c l => rfl
  have hnoterm : (('|' :: d.data).drop 1).any lineTerminator = false := by
    simp only [List.drop_succ_cons, List.drop_zero]
    cases hany : d.data.any lineTerminator with
    | false => rfl
    | true =>
      exfalso
      rcases List.any_eq_true.mp hany with ⟨c, hc, hlt2⟩
      have := List.all_eq_true.mp hdlt c hc
      simp [hlt2] at this
  unfold linkCapture
  simp only [wrap_data, hdata, hlen, htake, hdropend, hmid]
  rw [if_pos (by simp)]
  rw [hcontains]
  simp only [if_pos rfl, htw, hdw, hnoterm, hg1empty]
  simp

/-- C6 counterexample: `" [[a]]"` is a symbolic reference (its trimmed
form is `[[a]]`), but `extractLinkPath` applies the capture regex to
the raw, untrimmed string, fails to match the leading space, and
returns the input unchanged instead of the inner target `"a"`. -/
theorem claim_C6_counterexample :
    isObsidianLink " [[a]]" = true ∧
    extractLinkPath " [[a]]" = " [[a]]" ∧
    " [[a]]" ≠ "a" := by
  refine ⟨by decide, by decide, by decide⟩

/-- C6 amended: `extractTarget` behaves as the claim says only on
symbolic references with no surrounding whitespace and a non-empty
pipe-free-prefix target: on `[[mid]]` (no pipe in `mid`) it returns
`mid` trimmed, and on `[[g1|d]]` it returns `g1` trimmed; a
non-reference is returned unchanged; but a symbolic reference carrying
surrounding whitespace is returned unchanged, as is one whose target
text is empty. -/
theorem claim_C6_extract_target_amended (mid g1 d : String)
    (hne : mid ≠ "") (hpipe : mid.data.contains '|' = false)
    (hlt : mid.data.all (fun c => !lineTerminator c) = true)
    (hg1ne : g1 ≠ "") (hg1pipe : g1.data.contains '|' = false)
    (hg1lt : g1.data.all (fun c => !lineTerminator c) = true)
    (hdlt : d.data.all (fun c => !lineTerminator c) = true) :
    extractLinkPath ("[[" ++ mid ++ "]]") = jsTrim mid ∧
    extractLinkPath ("[[" ++ g1 ++ "|" ++ d ++ "]]") = jsTrim g1 ∧
    (∀ s : String, isObsidianLink s = false → extractLinkPath s = s) ∧
    (∀ s : String, jsTrim s ≠ s → extractLinkPath s = s) ∧
    extractLinkPath "[[]]" = "[[]]" ∧
    extractLinkPath "[[|x]]" = "[[|x]]" := by
  refine ⟨?_, ?_, ?_, ?_, by decide, by decide⟩
  · unfold extractLinkPath
    rw [isObsidianLink_wrap mid hlt, if_pos rfl, linkCapture_wrap mid hne hpipe]
  · have hmid : ("[[" ++ g1 ++ "|" ++ d ++ "]]") = ("[[" ++ (g1 ++ "|" ++ d) ++ "]]") := by
      simp [String.append_assoc]
    rw [hmid]
    have hdata : (g1 ++ "|" ++ d).data = g1.data ++ '|' :: d.data := by
      rw [String.data_append, String.data_append]
      simp
    unfold extractLinkPath
    rw [isObsidianLink_wrap (g1 ++ "|" ++ d) (by
      rw [hdata]
      rw [List.all_append]
      rw [Bool.and_eq_true]
      refine ⟨hg1lt, ?_⟩
      rw [List.all_cons]
      simp only [hdlt, Bool.and_true]
      decide), if_pos rfl]
    rw [linkCapture_pipe g1 d hg1ne hg1pipe hdlt]
  · intro s h
    unfold extractLinkPath
    rw [h]
    simp
  · intro s h
    unfold extractLinkPath
    cases hlink : isObsidianLink s with
    | false => simp
    | true =>
      cases hcap : linkCapture s with
      | none => simp
      | some g =>
        exfalso
        apply h
        unfold linkCapture at hcap
        by_cases hcond : (decide (4 ≤ s.data.length) && s.data.take 2 == ['[', '['] &&
            s.data.drop (s.data.length - 2) == [']', ']']) = true
        · apply jsTrim_eq_self
          · intro c hc
            rcases (Bool.and_eq_true _ _).mp hcond with ⟨h1, h2⟩
            rcases (Bool.and_eq_true _ _).mp h1 with ⟨-, htk⟩
            have htk2 : s.data.take 2 = ['[', '['] := by
              exact eq_of_beq htk
            cases hsd : s.data with
            | nil => rw [hsd] at htk2; exact absurd htk2 (by simp)
            | cons c0 rest =>
              rw [hsd] at hc htk2
              have hc0 : c0 = '[' := by
                cases rest with
                | nil => exact absurd htk2 (by simp)
                | cons c1 rest2 =>
                  simp only [List.take_succ_cons, List.cons.injEq] at htk2
                  exact htk2.1
              simp only [List.head?_cons, Option.some.injEq] at hc
              rw [← hc, hc0]
              rfl
          · intro c hc
            rcases (Bool.and_eq_true _ _).mp hcond with ⟨-, h2⟩
            have hdr : s.data.drop (s.data.length - 2) = [']', ']'] := eq_of_beq h2
            have hsplit : s.data = s.data.take (s.data.length - 2) ++
                s.data.drop (s.data.length - 2) := (List.take_append_drop _ _).symm
            rw [hsplit, List.getLast?_append_of_ne_nil _ (by rw [hdr]; simp), hdr] at hc
            simp only [List.getLast?_cons_cons, List.getLast?_singleton,
              Option.some.injEq] at hc
            rw [← hc]
            rfl
        · rw [if_neg hcond] at hcap
          exact absurd hcap (by simp)

/-- Witness for the amended C6 at concrete link strings. -/
theorem claim_C6_extract_target_amended_witness :
    extractLinkPath ("[[" ++ " atlas/person " ++ "]]") = jsTrim " atlas/person " ∧
    extractLinkPath ("[[" ++ "x" ++ "|" ++ "disp" ++ "]]") = jsTrim "x" ∧
    (∀ s : String, isObsidianLink s = false → extractLinkPath s = s) ∧
    (∀ s : String, jsTrim s ≠ s → extractLinkPath s = s) ∧
    extractLinkPath "[[]]" = "[[]]" ∧
    extractLinkPath "[[|x]]" = "[[|x]]" :=
  claim_C6_extract_target_amended " atlas/person " "x" "disp"
    (by decide) (by decide) (by decide) (by decide) (by decide) (by decide) (by decide)

/-! ## The public API calls on unknown entity types (C10) -/

/-- The claim as stated: for every argument that is not the name of a
configured schema (including the empty string and non-string values),
all four public calls return empty results. -/
def claimC10Statement : Prop :=
  ∀ (st : ApiState) (t : JVal),
    (match t with
     | JVal.str s => ∀ sc ∈ st.schemas, sc.name ≠ s
     | _ => True) →
    apiGetEntitiesByType st t = [] ∧
    getEntityTemplate st t = [] ∧
    getEntityCount st t = 0 ∧
    getEntityValidation st t = { total := 0, valid := 0, withIssues := 0, issues := [] }

/-- A scanner instance whose type names no configured schema (for
example after the schema configuration changed without a rescan). -/
def ghostInstance : EntityInstance :=
  { file := fileA, entityType := "Ghost", properties := [], missingProperties := [] }

/-- C10 counterexample: `getEntitiesByType` never checks
`hasEntityType`; with no configured schemas but a scanner instance of
type `"Ghost"`, the call returns that instance rather than the empty
list. -/
theorem claim_C10_counterexample : ¬ claimC10Statement := by
  intro h
  have hempty := (h { schemas := [], entityInstances := [ghostInstance] }
    (JVal.str "Ghost") (by intro sc hsc; cases hsc)).1
  rw [show apiGetEntitiesByType { schemas := [], entityInstances := [ghostInstance] }
      (JVal.str "Ghost") = [ghostInstance] from rfl] at hempty
  exact absurd hempty (by simp)

/-- C10 amended: for an argument naming no configured schema,
`getEntityTemplate`, `getEntityCount` and `getEntityValidation` return
the stated empty results, and `getEntitiesByType` returns the empty
list for the empty string and non-string arguments — but for a
non-empty string it returns the scanner's instances of that type
unconditionally, which is empty exactly when the scanner holds no
stale instance of an unconfigured type. -/
theorem claim_C10_unknown_type_amended (st : ApiState) (t : JVal)
    (hnc : match t with
      | JVal.str s => ∀ sc ∈ st.schemas, sc.name ≠ s
      | _ => True) :
    getEntityTemplate st t = [] ∧
    getEntityCount st t = 0 ∧
    getEntityValidation st t = { total := 0, valid := 0, withIssues := 0, issues := [] } ∧
    apiGetEntitiesByType st (JVal.num 7) = [] ∧
    apiGetEntitiesByType st (JVal.str "") = [] ∧
    ((∀ inst ∈ st.entityInstances, ∃ sc ∈ st.schemas, inst.entityType = sc.name) →
      apiGetEntitiesByType st t = []) := by
  have hhas : hasEntityType st t = false := by
    unfold hasEntityType
    cases t with
    | str s =>
      dsimp only
      by_cases hs : s = ""
      · subst hs; simp
      · rw [if_neg (by simpa using hs)]
        rw [List.any_eq_false]
        intro sc hsc
        simpa using hnc sc hsc
    | null => rfl
    | undef => rfl
    | num n => rfl
    | bool b => rfl
    | arr l => rfl
    | obj l => rfl
  refine ⟨?_, ?_, ?_, rfl, rfl, ?_⟩
  · unfold getEntityTemplate
    cases t with
    | str s =>
      dsimp only
      by_cases hs : s = ""
      · subst hs; simp
      · rw [if_neg (by simpa using hs)]
        rw [List.find?_eq_none.mpr (by
          intro sc hsc
          simpa using hnc sc hsc)]
    | null => rfl
    | undef => rfl
    | num n => rfl
    | bool b => rfl
    | arr l => rfl
    | obj l => rfl
  · unfold getEntityCount
    rw [hhas]
    simp
  · unfold getEntityValidation
    rw [hhas]
    simp
  · intro hall
    unfold apiGetEntitiesByType
    cases t with
    | str s =>
      dsimp only
      by_cases hs : s = ""
      · subst hs; simp
      · rw [if_neg (by simpa using hs)]
        unfold scannerGetEntitiesByType
        rw [List.filter_eq_nil_iff.mpr]
        intro e he
        rcases hall e he with ⟨sc, hsc, hname⟩
        have := hnc sc hsc
        simp only [beq_eq_false_iff_ne, ne_eq, beq_iff_eq]
        rw [hname]
        exact this
    | null => rfl
    | undef => rfl
    | num n => rfl
    | bool b => rfl
    | arr l => rfl
    | obj l => rfl

/-- Witness for the amended C10 at a concrete state. -/
theorem claim_C10_unknown_type_amended_witness :
    getEntityTemplate { schemas := [schemaAny], entityInstances := [] }
        (JVal.str "Nope") = [] ∧
    getEntityCount { schemas := [schemaAny], entityInstances := [] }
        (JVal.str "Nope") = 0 ∧
    getEntityValidation { schemas := [schemaAny], entityInstances := [] }
        (JVal.str "Nope") =
      { total := 0, valid := 0, withIssues := 0, issues := [] } ∧
    apiGetEntitiesByType { schemas := [schemaAny], entityInstances := [] }
        (JVal.num 7) = [] ∧
    apiGetEntitiesByType { schemas := [schemaAny], entityInstances := [] }
        (JVal.str "") = [] ∧
    ((∀ inst ∈ ({ schemas := [schemaAny], entityInstances := [] } :
          ApiState).entityInstances,
        ∃ sc ∈ ({ schemas := [schemaAny], entityInstances := [] } :
          ApiState).schemas, inst.entityType = sc.name) →
      apiGetEntitiesByType { schemas := [schemaAny], entityInstances := [] }
        (JVal.str "Nope") = []) :=
  claim_C10_unknown_type_amended { schemas := [schemaAny], entityInstances := [] }
    (JVal.str "Nope") (by decide)

/-! ## Defensive copies and object identity (C4) -/

namespace Alias

/-- Copying preserves everything below the spread levels: the name and
the two mappings (with all their nested addresses). -/
theorem map_sel_copySchema (base : Nat) :
    ∀ (l : List HSchema) (n : Nat),
      ((l.enumFrom n).map (fun p => copySchemaSpread (base + 1 + 3 * p.1) p.2)).map
        (fun s => (s.name, s.props, s.crit)) =
      l.map (fun s => (s.name, s.props, s.crit)) := by
  intro l
  induction l with
  | nil => intro n; rfl
  | cons x xs ih =>
    intro n
    simp only [List.enumFrom, List.map_cons]
    rw [ih]
    rfl

/-- Every copied schema's three spread containers live at or above the
allocation base. -/
theorem mem_copySchema_addrs (base : Nat) (l : List HSchema) (n : Nat)
    (s : HSchema)
    (hs : s ∈ (l.enumFrom n).map (fun p => copySchemaSpread (base + 1 + 3 * p.1) p.2)) :
    base < s.addr ∧ base < s.propsAddr ∧ base < s.critAddr := by
  rcases List.mem_map.mp hs with ⟨p, -, rfl⟩
  unfold copySchemaSpread
  dsimp only
  refine ⟨by omega, by omega, by omega⟩

/-- Copying preserves everything below the spread levels of an
instance: the file handle, the type, the metadata mapping and the
missing-properties list. -/
theorem map_sel_copyInstance (base : Nat) :
    ∀ (l : List HInstance) (n : Nat),
      ((l.enumFrom n).map (fun p => copyInstanceSpread (base + 1 + 3 * p.1) p.2)).map
        (fun e => (e.fileAddr, e.entityType, e.props, e.missingProperties)) =
      l.map (fun e => (e.fileAddr, e.entityType, e.props, e.missingProperties)) := by
  intro l
  induction l with
  | nil => intro n; rfl
  | cons x xs ih =>
    intro n
    simp only [List.enumFrom, List.map_cons]
    rw [ih]
    rfl

/-- Every copied instance's three spread containers live at or above
the allocation base. -/
theorem mem_copyInstance_addrs (base : Nat) (l : List HInstance) (n : Nat)
    (e : HInstance)
    (he : e ∈ (l.enumFrom n).map (fun p => copyInstanceSpread (base + 1 + 3 * p.1) p.2)) :
    base < e.addr ∧ base < e.propsAddr ∧ base < e.missingAddr := by
  rcases List.mem_map.mp he with ⟨p, -, rfl⟩
  unfold copyInstanceSpread
  dsimp only
  refine ⟨by omega, by omega, by omega⟩

end Alias

/-- A concrete held schema whose property-definition object lives at
address 3. -/
def schemaH : Alias.HSchema :=
  { addr := 1, name := "Person", propsAddr := 2,
    props := [("name", Alias.HVal.obj 3 [])], critAddr := 4, crit := [] }

/-- A concrete held schema array. -/
def schemasH : Alias.HSchemaList := { addr := 0, items := [schemaH] }

/-- A concrete held instance. -/
def instanceH : Alias.HInstance :=
  { addr := 6, fileAddr := 7, entityType := "Ghost", propsAddr := 8,
    props := [], missingAddr := 9, missingProperties := [] }

/-- A concrete held instance array. -/
def scannerH : Alias.HInstanceList := { addr := 5, items := [instanceH] }

/-- C4 counterexample: `getEntityInstances` returns the internal array
itself (`return this.entityInstances;`), so its result shares every
internal address — the deep-copy contract fails already there. -/
theorem claim_C4_counterexample : ¬ Alias.apiDeepCopyClaim := by
  intro h
  have hinter := (h schemasH scannerH 10 "x"
    (by unfold Alias.FreshFor; decide) (by unfold Alias.FreshFor; decide)).2.2
  rw [show (Alias.getEntityInstancesH scannerH).addrs.inter scannerH.addrs =
      [5, 6, 7, 8, 9] from rfl] at hinter
  exact absurd hinter (by simp)

/-- C4 amended: `getEntitySchemas` and `getEntitiesByType` return
containers that are fresh at the levels the spread copies allocate
(the result array, each schema/instance object, its
`properties`/`matchCriteria`/`missingProperties` containers) — none of
those shares an address with the internal state — but everything
deeper (property-definition objects, criteria values, the file handle,
metadata values) is the very same object, address included; and
`getEntityInstances` returns the internal array itself by
reference. -/
theorem claim_C4_shallow_copy_amended (schemas : Alias.HSchemaList)
    (scanner : Alias.HInstanceList) (base : Nat) (t : String)
    (hs : Alias.FreshFor base schemas.addrs)
    (hi : Alias.FreshFor base scanner.addrs) :
    ((Alias.getEntitySchemasH schemas base).addr ∉ schemas.addrs ∧
      ∀ s ∈ (Alias.getEntitySchemasH schemas base).items,
        s.addr ∉ schemas.addrs ∧ s.propsAddr ∉ schemas.addrs ∧
        s.critAddr ∉ schemas.addrs) ∧
    (Alias.getEntitySchemasH schemas base).items.map (fun s => (s.name, s.props, s.crit)) =
      schemas.items.map (fun s => (s.name, s.props, s.crit)) ∧
    ((Alias.getEntitiesByTypeH scanner t base).addr ∉ scanner.addrs ∧
      ∀ e ∈ (Alias.getEntitiesByTypeH scanner t base).items,
        e.addr ∉ scanner.addrs ∧ e.propsAddr ∉ scanner.addrs ∧
        e.missingAddr ∉ scanner.addrs) ∧
    (Alias.getEntitiesByTypeH scanner t base).items.map
        (fun e => (e.fileAddr, e.entityType, e.props, e.missingProperties)) =
      (scanner.items.filter (fun e => e.entityType == t)).map
        (fun e => (e.fileAddr, e.entityType, e.props, e.missingProperties)) ∧
    Alias.getEntityInstancesH scanner = scanner := by
  refine ⟨⟨?_, ?_⟩, ?_, ⟨?_, ?_⟩, ?_, rfl⟩
  · intro hmem
    exact absurd (hs _ hmem) (by simp [Alias.getEntitySchemasH])
  · intro s hsmem
    have hb := Alias.mem_copySchema_addrs base schemas.items 0 s hsmem
    refine ⟨?_, ?_, ?_⟩ <;>
      · intro hmem
        have := hs _ hmem
        omega
  · exact Alias.map_sel_copySchema base schemas.items 0
  · intro hmem
    exact absurd (hi _ hmem) (by simp [Alias.getEntitiesByTypeH])
  · intro e hemem
    have hb := Alias.mem_copyInstance_addrs base
      (scanner.items.filter (fun e => e.entityType == t)) 0 e hemem
    refine ⟨?_, ?_, ?_⟩ <;>
      · intro hmem
        have := hi _ hmem
        omega
  · exact Alias.map_sel_copyInstance base (scanner.items.filter (fun e => e.entityType == t)) 0

/-- Witness for the amended C4 at a concrete state with allocation
base 10. -/
theorem claim_C4_shallow_copy_amended_witness :
    ((Alias.getEntitySchemasH schemasH 10).addr ∉ schemasH.addrs ∧
      ∀ s ∈ (Alias.getEntitySchemasH schemasH 10).items,
        s.addr ∉ schemasH.addrs ∧ s.propsAddr ∉ schemasH.addrs ∧
        s.critAddr ∉ schemasH.addrs) ∧
    (Alias.getEntitySchemasH schemasH 10).items.map (fun s => (s.name, s.props, s.crit)) =
      schemasH.items.map (fun s => (s.name, s.props, s.crit)) ∧
    ((Alias.getEntitiesByTypeH scannerH "Ghost" 10).addr ∉ scannerH.addrs ∧
      ∀ e ∈ (Alias.getEntitiesByTypeH scannerH "Ghost" 10).items,
        e.addr ∉ scannerH.addrs ∧ e.propsAddr ∉ scannerH.addrs ∧
        e.missingAddr ∉ scannerH.addrs) ∧
    (Alias.getEntitiesByTypeH scannerH "Ghost" 10).items.map
        (fun e => (e.fileAddr, e.entityType, e.props, e.missingProperties)) =
      (scannerH.items.filter (fun e => e.entityType == "Ghost")).map
        (fun e => (e.fileAddr, e.entityType, e.props, e.missingProperties)) ∧
    Alias.getEntityInstancesH scannerH = scannerH :=
  claim_C4_shallow_copy_amended schemasH scannerH 10 "Ghost"
    (by unfold Alias.FreshFor; decide) (by unfold Alias.FreshFor; decide)

end EntitySchema
